import Mathlib

/-!
Formal model of `plot_results.py`

This file gives a shallow embedding of the computational core of the script
`plot_results.py` (the benchmark aggregation-and-verification engine) and
proves or refutes the specified properties about it.

Modelling conventions:

* Python ints are modelled as `ℤ`; Python/NumPy floats are modelled as exact
  rationals `ℚ` wherever the computation stays finite.  Where IEEE special
  values genuinely arise in the script (`np.log2` at `n ≤ 0`, division by
  zero) we use the extended type `XF` with `fin q`, `pinf`, `ninf`, `nan`
  following IEEE-754 product/quotient semantics (the sign of zero is not
  modelled; the script only ever divides by the non-negative value
  `n * log2 n`).
* `np.log2` is transcendental, so its finite values at integer arguments
  `n ≥ 2` are kept abstract as a parameter `L : ℤ → ℚ`; its exact special
  values `log2 1 = 0`, `log2 0 = -inf`, `log2 (negative) = nan` are built in.
* `np.mean l = l.sum / l.length` and `np.std l = sqrt (npVar l)` with
  `npVar l` the population variance (mean of squared deviations, NumPy's
  default `ddof=0`).  Since `sqrt` is irrational, definitions store the
  square `npVar`; the square root is applied at the statement level where a
  claim speaks about the standard deviation itself.
-/

/-- Extended floats: finite rational, `+inf`, `-inf` or `nan`. -/
inductive XF : Type
  | fin : ℚ → XF
  | pinf : XF
  | ninf : XF
  | nan : XF
deriving DecidableEq

namespace XF

/-- IEEE-754 multiplication on `XF` (sign of zero ignored):
`0 * ±inf = nan`, otherwise signs propagate. -/
def mul : XF → XF → XF
  | nan, _ => nan
  | _, nan => nan
  | fin a, fin b => fin (a * b)
  | fin a, pinf => if a = 0 then nan else if 0 < a then pinf else ninf
  | fin a, ninf => if a = 0 then nan else if 0 < a then ninf else pinf
  | pinf, fin b => if b = 0 then nan else if 0 < b then pinf else ninf
  | ninf, fin b => if b = 0 then nan else if 0 < b then ninf else pinf
  | pinf, pinf => pinf
  | pinf, ninf => ninf
  | ninf, pinf => ninf
  | ninf, ninf => pinf

/-- IEEE-754 division on `XF` (sign of zero ignored): a nonzero finite
numerator divided by zero gives a signed infinity (NumPy emits a warning and
returns `inf`, it does not raise), `0/0 = nan`, `inf/inf = nan`,
finite`/`inf `= 0`. -/
def div : XF → XF → XF
  | nan, _ => nan
  | _, nan => nan
  | fin a, fin b =>
      if b = 0 then (if a = 0 then nan else if 0 < a then pinf else ninf)
      else fin (a / b)
  | fin _, pinf => fin 0
  | fin _, ninf => fin 0
  | pinf, fin b => if 0 ≤ b then pinf else ninf
  | ninf, fin b => if 0 ≤ b then ninf else pinf
  | pinf, pinf => nan
  | pinf, ninf => nan
  | ninf, pinf => nan
  | ninf, ninf => nan

end XF

/-- `np.log2` at integer arguments, with the finite values at `n ≥ 2` kept
abstract as `L`: `log2 n = nan` for `n < 0`, `-inf` at `0`, exactly `0` at
`1`, and `L n` for `n ≥ 2`. -/
def npLog2 (L : ℤ → ℚ) (n : ℤ) : XF :=
  if n < 0 then .nan
  else if n = 0 then .ninf
  else if n = 1 then .fin 0
  else .fin (L n)

/-- One raw benchmark measurement: a parsed CSV row
(`plot_results.py` lines 24-29 keep these in six parallel lists; we keep
one record per row, the row order being shared across the lists). -/
structure Trial : Type where
  input_size : ℤ
  time_ms : ℚ
  comparisons : ℤ
  swaps : ℤ
  heapify_ops : ℤ
  memory_kb : ℤ
deriving DecidableEq

/-- The `sizes` list (line 24): one `input_size` per row, in row order. -/
def sizesOf (trials : List Trial) : List ℤ :=
  trials.map (fun t => t.input_size)

/-- Insert a value into an ascending duplicate-free list, keeping it
ascending and duplicate-free. -/
def insertUnique (x : ℤ) : List ℤ → List ℤ
  | [] => [x]
  | y :: ys =>
      if x < y then x :: y :: ys
      else if x = y then y :: ys
      else y :: insertUnique x ys

/-- Sort a list ascending and drop duplicates: the semantics of Python's
`sorted(set(l))`. -/
def sortedUnique (l : List ℤ) : List ℤ :=
  l.foldr insertUnique []

/-- `unique_sizes = sorted(set(sizes))` (line 32): the distinct input sizes
in ascending order. -/
def uniqueSizes (trials : List Trial) : List ℤ :=
  sortedUnique (sizesOf trials)

/-- `np.mean`: arithmetic mean, sum over length. -/
def npMean (l : List ℚ) : ℚ :=
  l.sum / l.length

/-- The square of `np.std`: the population variance (NumPy default
`ddof = 0`), the mean of the squared deviations from the mean. -/
def npVar (l : List ℚ) : ℚ :=
  npMean (l.map (fun x => (x - npMean l) ^ 2))

/-- `indices = [i for i, s in enumerate(sizes) if s == size]` (line 41)
followed by selecting the rows at those indices: the rows of `trials`
whose `input_size` equals `s`, in row order. -/
def group (trials : List Trial) (s : ℤ) : List Trial :=
  trials.filter (fun t => t.input_size == s)

/-- The aggregate computed for one unique size (loop body, lines 40-47).
`std_time_sq` stores the square of `std_times`; see the header comment. -/
structure AggregateRecord : Type where
  input_size : ℤ
  mean_time_ms : ℚ
  std_time_sq : ℚ
  mean_comparisons : ℚ
  mean_swaps : ℚ
  mean_heapify_ops : ℚ
  mean_memory_kb : ℚ
deriving DecidableEq

/-- Loop body for one size (lines 40-47): each mean/std is taken over the
rows whose `input_size` equals `s`. -/
def aggregateAt (trials : List Trial) (s : ℤ) : AggregateRecord :=
  { input_size := s
    mean_time_ms := npMean ((group trials s).map (fun t => t.time_ms))
    std_time_sq := npVar ((group trials s).map (fun t => t.time_ms))
    mean_comparisons := npMean ((group trials s).map (fun t => (t.comparisons : ℚ)))
    mean_swaps := npMean ((group trials s).map (fun t => (t.swaps : ℚ)))
    mean_heapify_ops := npMean ((group trials s).map (fun t => (t.heapify_ops : ℚ)))
    mean_memory_kb := npMean ((group trials s).map (fun t => (t.memory_kb : ℚ))) }

/-- The aggregation loop (lines 40-47): one record per unique size, in
ascending size order. -/
def groupAndAggregate (trials : List Trial) : List AggregateRecord :=
  (uniqueSizes trials).map (aggregateAt trials)

/-- The `avg_times` list (line 42), indexed in step with `unique_sizes`. -/
def avgTimes (trials : List Trial) : List ℚ :=
  (groupAndAggregate trials).map (fun r => r.mean_time_ms)

/-- `n * np.log2(n)` (line 122), a Python int times a NumPy float. -/
def nLogN (L : ℤ → ℚ) (n : ℤ) : XF :=
  XF.mul (.fin (n : ℚ)) (npLog2 L n)

/-- `n_log_n = [n * np.log2(n) for n in unique_sizes]` (line 122). -/
def nLogNList (L : ℤ → ℚ) (trials : List Trial) : List XF :=
  (uniqueSizes trials).map (nLogN L)

/-- `normalized_time = [t / nl for t, nl in zip(avg_times, n_log_n)]`
(line 123).  Computed for every unique size, with no exclusion of sizes
`≤ 1`. -/
def normalizedTimeX (L : ℤ → ℚ) (trials : List Trial) : List XF :=
  List.zipWith XF.div ((avgTimes trials).map XF.fin) (nLogNList L trials)

/-- `n * np.log2(n) * 1.44` (lines 91 and 275); `1.44 = 36/25` exactly. -/
def theoreticalComp (L : ℤ → ℚ) (n : ℤ) : XF :=
  XF.mul (nLogN L n) (.fin (36 / 25))

/-- `theoretical = [n * np.log2(n) * 1.44 for n in unique_sizes]`
(line 91). -/
def theoreticalCompList (L : ℤ → ℚ) (trials : List Trial) : List XF :=
  (uniqueSizes trials).map (theoreticalComp L)

/-- Element of `theoretical_swaps = [n - 1 for n in unique_sizes]`
(line 111), exact Python integer arithmetic. -/
def theoretical_swaps (n : ℤ) : ℤ :=
  n - 1

/-- `theoretical_swaps = [n - 1 for n in unique_sizes]` (line 111). -/
def theoreticalSwapsList (trials : List Trial) : List ℤ :=
  (uniqueSizes trials).map theoretical_swaps

/-- Python list indexing `l[i]`: non-negative indices from the front,
negative indices meaning `l[len(l) + i]`; out of range raises `IndexError`,
modelled as `none`. -/
def pyGet {α : Type} (l : List α) (i : ℤ) : Option α :=
  if 0 ≤ i then l.get? i.toNat
  else if 0 ≤ (l.length : ℤ) + i then l.get? ((l.length : ℤ) + i).toNat
  else none

/-- The annotation lookup of the largest size (lines 68-69):
`max_idx = len(unique_sizes) - 1` then `unique_sizes[max_idx]`.
On an empty trial set this is `[] [-1]`, an `IndexError` (`none`). -/
def largestSize (trials : List Trial) : Option ℤ :=
  pyGet (uniqueSizes trials) ((uniqueSizes trials).length - 1)

/-- `time_ratio = avg_times[i] / avg_times[i-1]` for `i = 1, ...`
(lines 196-201): quotient of each adjacent pair of mean times, NumPy float
division (`np.mean` returns a NumPy float). -/
def growthRatiosX (trials : List Trial) : List XF :=
  ((avgTimes trials).zip (avgTimes trials).tail).map
    (fun p => XF.div (.fin p.2) (.fin p.1))

/-- `theoretical_ratio = (u[i]*log2(u[i])) / (u[i-1]*log2(u[i-1]))`
(lines 199-202), collected as `size_ratios`. -/
def sizeRatiosX (L : ℤ → ℚ) (trials : List Trial) : List XF :=
  ((uniqueSizes trials).zip (uniqueSizes trials).tail).map
    (fun p => XF.div (nLogN L p.2) (nLogN L p.1))

/-- The finite-regime value of one normalized time:
`mean_time / (n * log2 n)` in `ℚ`. -/
def normTimeQ (L : ℤ → ℚ) (r : AggregateRecord) : ℚ :=
  r.mean_time_ms / ((r.input_size : ℚ) * L r.input_size)

/-- The finite-regime normalized-time series: when every input size is at
least 2 this agrees with `normalizedTimeX` entrywise (proved below). -/
def normTimesQ (L : ℤ → ℚ) (trials : List Trial) : List ℚ :=
  (groupAndAggregate trials).map (normTimeQ L)

/-- Scaling every measured time by a constant `c` (for the
scale-invariance property of the coefficient of variation). -/
def scaleTimes (c : ℚ) (trials : List Trial) : List Trial :=
  trials.map (fun t => { t with time_ms := c * t.time_ms })

section Loader

/-- A CSV row as seen by `csv.DictReader`: field name / raw text pairs. -/
def Row : Type := List (String × String)

/-- `row[k]`: `none` models the missing-field failure (Python raises
`KeyError` for an absent column, or `TypeError` via a padded `None`). -/
def rowGet (r : Row) (k : String) : Option String :=
  (r.find? (fun p => p.1 == k)).map (fun p => p.2)

/-- Strip leading and trailing whitespace, as Python's numeric
constructors do. -/
def pyStripChars (cs : List Char) : List Char :=
  ((cs.dropWhile Char.isWhitespace).reverse.dropWhile Char.isWhitespace).reverse

/-- Decimal digits to a natural number. -/
def digitsToNat (cs : List Char) : ℕ :=
  cs.foldl (fun a c => a * 10 + (c.toNat - ('0').toNat)) 0

/-- All characters are decimal digits and there is at least one. -/
def allDigits (cs : List Char) : Bool :=
  !cs.isEmpty && cs.all Char.isDigit

/-- Python `int(text)` on plain decimal literals: optional sign then
digits; anything else (in particular text with a decimal point or
non-numeric text) raises `ValueError`, modelled as `none`.  (Underscore
digit separators and non-ASCII digits are not modelled; the script's
inputs do not use them.) -/
def pyInt? (s : String) : Option ℤ :=
  match pyStripChars s.data with
  | '-' :: rest => if allDigits rest then some (-(digitsToNat rest : ℤ)) else none
  | '+' :: rest => if allDigits rest then some (digitsToNat rest : ℤ) else none
  | cs => if allDigits cs then some (digitsToNat cs : ℤ) else none

/-- The value of `a.b` as an exact rational. -/
def decimalToRat (intPart fracPart : List Char) : ℚ :=
  (digitsToNat intPart : ℚ) + (digitsToNat fracPart : ℚ) / (10 : ℚ) ^ fracPart.length

/-- Unsigned decimal literal `digits`, `digits.digits`, `.digits` or
`digits.` with at least one digit in total. -/
def pyFloatBody? (cs : List Char) : Option ℚ :=
  let intPart := cs.takeWhile Char.isDigit
  match cs.drop intPart.length with
  | [] => if intPart.isEmpty then none else some (digitsToNat intPart : ℚ)
  | '.' :: fracPart =>
      if fracPart.all Char.isDigit && !(intPart.isEmpty && fracPart.isEmpty) then
        some (decimalToRat intPart fracPart)
      else none
  | _ => none

/-- Python `float(text)` on plain decimal literals: optional sign, digits
with an optional fractional part; non-numeric text raises `ValueError`,
modelled as `none`.  (Exponent notation, `inf` and `nan` literals are not
modelled; the script's inputs do not use them.) -/
def pyFloat? (s : String) : Option ℚ :=
  match pyStripChars s.data with
  | '-' :: rest => (pyFloatBody? rest).map (fun q => -q)
  | '+' :: rest => pyFloatBody? rest
  | cs => pyFloatBody? cs

/-- The condition on which a row aborts the load.  Note: deliberately
carries the field name and offending text but NO row index, exactly like
the Python exceptions (`KeyError('InputSize')`,
`ValueError("invalid literal for int() with base 10: 'abc'")`) raised by
lines 24-29. -/
inductive LoadErr : Type
  | missingField : String → LoadErr
  | badInt : String → String → LoadErr
  | badFloat : String → String → LoadErr
deriving DecidableEq

/-- `int(row[k])` (lines 24, 26-29). -/
def getIntField (r : Row) (k : String) : Except LoadErr ℤ :=
  match rowGet r k with
  | none => .error (.missingField k)
  | some v =>
      match pyInt? v with
      | none => .error (.badInt k v)
      | some n => .ok n

/-- `float(row[k])` (line 25). -/
def getFloatField (r : Row) (k : String) : Except LoadErr ℚ :=
  match rowGet r k with
  | none => .error (.missingField k)
  | some v =>
      match pyFloat? v with
      | none => .error (.badFloat k v)
      | some q => .ok q

/-- One iteration of the reading loop (lines 23-29), coercing the six
fields in source order; the first failing coercion aborts. -/
def parseRow (r : Row) : Except LoadErr Trial := do
  let s ← getIntField r "InputSize"
  let t ← getFloatField r "TimeMillis"
  let c ← getIntField r "Comparisons"
  let w ← getIntField r "Swaps"
  let h ← getIntField r "HeapifyOps"
  let m ← getIntField r "MemoryKB"
  pure ⟨s, t, c, w, h, m⟩

/-- The reading loop (lines 21-29): rows in order, the first malformed row
aborting the whole load with its exception. -/
def loadTrials : List Row → Except LoadErr (List Trial)
  | [] => .ok []
  | r :: rs =>
      match parseRow r with
      | .error e => .error e
      | .ok t =>
          match loadTrials rs with
          | .error e => .error e
          | .ok ts => .ok (t :: ts)

end Loader

/-! Helper lemmas about `sortedUnique` (the model of `sorted(set(...))`). -/

theorem mem_insertUnique (x a : ℤ) (l : List ℤ) :
    a ∈ insertUnique x l ↔ a = x ∨ a ∈ l := by
  induction l with
  | nil => simp [insertUnique]
  | cons y ys ih =>
      by_cases h1 : x < y
      · simp only [insertUnique, if_pos h1, List.mem_cons]
      · by_cases h2 : x = y
        · subst h2
          simp only [insertUnique, if_neg h1, if_true, List.mem_cons]
          tauto
        · simp only [insertUnique, if_neg h1, if_neg h2, List.mem_cons, ih]
          tauto

theorem sorted_insertUnique (x : ℤ) (l : List ℤ) (hl : l.Sorted (· < ·)) :
    (insertUnique x l).Sorted (· < ·) := by
  induction l with
  | nil => simp [insertUnique]
  | cons y ys ih =>
      rw [List.sorted_cons] at hl
      obtain ⟨hy, hys⟩ := hl
      by_cases h1 : x < y
      · simp only [insertUnique, if_pos h1]
        rw [List.sorted_cons]
        refine ⟨?_, ?_⟩
        · intro b hb
          rcases List.mem_cons.1 hb with rfl | hb
          · exact h1
          · exact h1.trans (hy b hb)
        · rw [List.sorted_cons]
          exact ⟨hy, hys⟩
      · by_cases h2 : x = y
        · simp only [insertUnique, if_neg h1, if_pos h2]
          rw [List.sorted_cons]
          exact ⟨hy, hys⟩
        · simp only [insertUnique, if_neg h1, if_neg h2]
          rw [List.sorted_cons]
          refine ⟨?_, ih hys⟩
          intro b hb
          rcases (mem_insertUnique x b ys).1 hb with rfl | hb
          · omega
          · exact hy b hb

theorem sortedUnique_sorted (l : List ℤ) : (sortedUnique l).Sorted (· < ·) := by
  induction l with
  | nil => simp [sortedUnique]
  | cons x xs ih => exact sorted_insertUnique x _ ih

theorem mem_sortedUnique (a : ℤ) (l : List ℤ) : a ∈ sortedUnique l ↔ a ∈ l := by
  induction l with
  | nil => simp [sortedUnique]
  | cons x xs ih =>
      show a ∈ insertUnique x (sortedUnique xs) ↔ _
      rw [mem_insertUnique, ih, List.mem_cons]

theorem sortedUnique_eq_of_mem_iff {l1 l2 : List ℤ} (h : ∀ a, a ∈ l1 ↔ a ∈ l2) :
    sortedUnique l1 = sortedUnique l2 := by
  haveI : IsAntisymm ℤ (· < ·) := ⟨fun a b h1 h2 => absurd h2 (asymm h1)⟩
  refine List.eq_of_perm_of_sorted ?_ (sortedUnique_sorted l1) (sortedUnique_sorted l2)
  rw [List.perm_ext_iff_of_nodup (sortedUnique_sorted l1).nodup
    (sortedUnique_sorted l2).nodup]
  intro a
  rw [mem_sortedUnique, mem_sortedUnique]
  exact h a

/-! Helper lemmas about `npMean` and `npVar`. -/

theorem npMean_perm {l l' : List ℚ} (h : l.Perm l') : npMean l = npMean l' := by
  unfold npMean
  rw [h.sum_eq, h.length_eq]

theorem npVar_perm {l l' : List ℚ} (h : l.Perm l') : npVar l = npVar l' := by
  unfold npVar
  rw [npMean_perm h]
  exact npMean_perm (h.map _)

theorem npMean_singleton (x : ℚ) : npMean [x] = x := by
  simp [npMean]

theorem npVar_singleton (x : ℚ) : npVar [x] = 0 := by
  simp [npVar, npMean]

theorem sum_map_mul (c : ℚ) (l : List ℚ) :
    (l.map (fun x => c * x)).sum = c * l.sum := by
  induction l with
  | nil => simp
  | cons x xs ih => simp [ih, mul_add]

theorem npMean_map_mul (c : ℚ) (l : List ℚ) :
    npMean (l.map (fun x => c * x)) = c * npMean l := by
  unfold npMean
  rw [sum_map_mul, List.length_map, mul_div_assoc]

theorem npVar_map_mul (c : ℚ) (l : List ℚ) :
    npVar (l.map (fun x => c * x)) = c ^ 2 * npVar l := by
  unfold npVar
  rw [npMean_map_mul, List.map_map]
  have h1 : ((fun x => (x - c * npMean l) ^ 2) ∘ fun x => c * x)
      = fun x => c ^ 2 * ((x - npMean l) ^ 2) := by
    funext x
    simp only [Function.comp]
    ring
  rw [h1]
  have h2 : l.map (fun x => c ^ 2 * (x - npMean l) ^ 2)
      = (l.map (fun x => (x - npMean l) ^ 2)).map (fun y => c ^ 2 * y) := by
    rw [List.map_map]
    simp [Function.comp]
  rw [h2, npMean_map_mul]

theorem npVar_nonneg (l : List ℚ) : 0 ≤ npVar l := by
  unfold npVar npMean
  apply div_nonneg _ (by positivity)
  apply List.sum_nonneg
  intro x hx
  rw [List.mem_map] at hx
  obtain ⟨y, _, rfl⟩ := hx
  positivity

/-! Helper lemmas about the grouping. -/

theorem aggregateAt_input_size (trials : List Trial) (s : ℤ) :
    (aggregateAt trials s).input_size = s := rfl

theorem count_group (trials : List Trial) (s : ℤ) (t : Trial) :
    (group trials s).count t = if t.input_size = s then trials.count t else 0 := by
  unfold group
  by_cases h : t.input_size = s
  · rw [if_pos h]
    exact List.count_filter (by simp [h])
  · rw [if_neg h]
    rw [List.count_eq_zero]
    intro hmem
    rw [List.mem_filter] at hmem
    exact h (by simpa using hmem.2)

theorem count_flatten_groups (trials : List Trial) (t : Trial) :
    ∀ (u : List ℤ), u.Nodup →
      ((u.map (group trials)).flatten).count t
        = if t.input_size ∈ u then trials.count t else 0 := by
  intro u
  induction u with
  | nil => simp
  | cons s ss ih =>
      intro hnd
      rw [List.nodup_cons] at hnd
      obtain ⟨hs, hnd⟩ := hnd
      simp only [List.map_cons, List.flatten_cons, List.count_append, ih hnd,
        count_group, List.mem_cons]
      by_cases h : t.input_size = s
      · subst h
        rw [if_pos rfl, if_neg hs, if_pos (Or.inl rfl)]
        omega
      · rw [if_neg h]
        by_cases h2 : t.input_size ∈ ss
        · rw [if_pos h2, if_pos (Or.inr h2), Nat.zero_add]
        · rw [if_neg h2, if_neg (by tauto)]

theorem uniqueSizes_sorted (trials : List Trial) :
    (uniqueSizes trials).Sorted (· < ·) :=
  sortedUnique_sorted _

theorem uniqueSizes_nodup (trials : List Trial) : (uniqueSizes trials).Nodup :=
  (sortedUnique_sorted _).nodup

theorem mem_uniqueSizes (trials : List Trial) (s : ℤ) :
    s ∈ uniqueSizes trials ↔ s ∈ sizesOf trials :=
  mem_sortedUnique _ _

theorem flatten_groups_perm (trials : List Trial) :
    (((uniqueSizes trials).map (group trials)).flatten).Perm trials := by
  rw [List.perm_iff_count]
  intro t
  rw [count_flatten_groups trials t _ (uniqueSizes_nodup trials)]
  by_cases h : t.input_size ∈ uniqueSizes trials
  · rw [if_pos h]
  · rw [if_neg h]
    symm
    rw [List.count_eq_zero]
    intro hmem
    exact h ((mem_sortedUnique _ _).2 (List.mem_map_of_mem _ hmem))

/-! Helper lemmas about zipping and the normalized-time series. -/

theorem zipWith_map_same {α β γ δ : Type} (f : β → γ → δ) (g : α → β) (h : α → γ)
    (l : List α) :
    List.zipWith f (l.map g) (l.map h) = l.map (fun x => f (g x) (h x)) := by
  induction l with
  | nil => rfl
  | cons x xs ih => simp [ih]

theorem normalizedTimeX_eq (L : ℤ → ℚ) (trials : List Trial) :
    normalizedTimeX L trials
      = (groupAndAggregate trials).map
          (fun r => XF.div (.fin r.mean_time_ms) (nLogN L r.input_size)) := by
  simp only [normalizedTimeX, avgTimes, nLogNList, groupAndAggregate,
    List.map_map, zipWith_map_same]
  rfl

theorem nLogN_of_two_le (L : ℤ → ℚ) {n : ℤ} (h : 2 ≤ n) :
    nLogN L n = .fin ((n : ℚ) * L n) := by
  unfold nLogN npLog2
  rw [if_neg (by omega), if_neg (by omega), if_neg (by omega)]
  rfl

theorem div_fin_of_ne {a b : ℚ} (hb : b ≠ 0) :
    XF.div (.fin a) (.fin b) = .fin (a / b) := by
  simp [XF.div, hb]

theorem div_fin_zero_of_pos {a : ℚ} (ha : 0 < a) :
    XF.div (.fin a) (.fin 0) = .pinf := by
  simp [XF.div, ne_of_gt ha, ha]

/-! Concrete sample inputs used in witnesses and counterexamples. -/

/-- A trial of input size 100 with mean-friendly values. -/
def trial100 : Trial := ⟨100, 1, 10, 5, 3, 64⟩

/-- A trial of input size 200 with time 2.2 ms. -/
def trial200 : Trial := ⟨200, 11 / 5, 20, 9, 7, 64⟩

/-- A trial of input size 400 with time 4.9 ms. -/
def trial400 : Trial := ⟨400, 49 / 10, 40, 19, 15, 64⟩

/-- A trial of input size 1 (time 5 ms): triggers the divide-by-zero in the
normalized-time computation. -/
def trialSize1 : Trial := ⟨1, 5, 0, 0, 0, 0⟩

/-- A trial of input size 0: triggers `log2(0) = -inf` in the theoretical
curves. -/
def trialSize0 : Trial := ⟨0, 1, 0, 0, 0, 0⟩

/-- The trial set of the spec's growth-transition example: sizes
`[100, 200, 400]` with mean times `[1.0, 2.2, 4.9]`. -/
def trialsC6 : List Trial := [trial100, trial200, trial400]

/-- C1: for every non-empty trial set, `group_and_aggregate` returns exactly
one `AggregateRecord` per distinct `input_size` (its size column is exactly
the deduplicated ascending size set, so it is strictly ascending), the
distinct sizes are exactly those present in the trials, the per-size groups
partition the trials with no omission or double counting, and each record's
statistics are computed over exactly its own group. -/
theorem c1_one_record_per_size_ascending (trials : List Trial) (hne : trials ≠ []) :
    ((groupAndAggregate trials).map (fun r => r.input_size) = uniqueSizes trials)
    ∧ ((groupAndAggregate trials).map (fun r => r.input_size)).Sorted (· < ·)
    ∧ (∀ s : ℤ, s ∈ uniqueSizes trials ↔ s ∈ sizesOf trials)
    ∧ ((((uniqueSizes trials).map (group trials)).flatten).Perm trials)
    ∧ ∀ r ∈ groupAndAggregate trials,
        r.mean_time_ms = npMean ((group trials r.input_size).map (fun t => t.time_ms))
        ∧ r.std_time_sq = npVar ((group trials r.input_size).map (fun t => t.time_ms))
        ∧ r.mean_comparisons
            = npMean ((group trials r.input_size).map (fun t => (t.comparisons : ℚ)))
        ∧ r.mean_swaps
            = npMean ((group trials r.input_size).map (fun t => (t.swaps : ℚ)))
        ∧ r.mean_heapify_ops
            = npMean ((group trials r.input_size).map (fun t => (t.heapify_ops : ℚ)))
        ∧ r.mean_memory_kb
            = npMean ((group trials r.input_size).map (fun t => (t.memory_kb : ℚ))) := by
  have hmap : (groupAndAggregate trials).map (fun r => r.input_size) = uniqueSizes trials := by
    unfold groupAndAggregate
    rw [List.map_map]
    have h1 : List.map ((fun r => r.input_size) ∘ aggregateAt trials) (uniqueSizes trials)
        = List.map id (uniqueSizes trials) :=
      List.map_congr_left (fun s _ => rfl)
    rw [h1, List.map_id]
  refine ⟨hmap, ?_, fun s => mem_uniqueSizes trials s, flatten_groups_perm trials, ?_⟩
  · rw [hmap]
    exact uniqueSizes_sorted trials
  · intro r hr
    obtain ⟨s, _, rfl⟩ := List.mem_map.1 hr
    exact ⟨rfl, rfl, rfl, rfl, rfl, rfl⟩

/-- Witness for C1 at a concrete three-row, two-size trial set. -/
theorem c1_one_record_per_size_ascending_witness :
    ([trial200, trial100, trial100] : List Trial) ≠ []
    ∧ (groupAndAggregate [trial200, trial100, trial100]).map (fun r => r.input_size)
        = uniqueSizes [trial200, trial100, trial100] :=
  ⟨List.cons_ne_nil _ _,
   (c1_one_record_per_size_ascending [trial200, trial100, trial100]
     (List.cons_ne_nil _ _)).1⟩

/-- C5 (code-bug evidence): on an empty trial sequence the aggregation loop
itself yields no aggregate records and raises nothing, but the script's very
next step, the plot-1 label lookup `unique_sizes[max_idx]` with
`max_idx = len(unique_sizes) - 1 = -1` (lines 68-69), indexes the empty list
out of range — an `IndexError` (modelled as `none`), so the run does raise
on empty input, contrary to the claim. -/
theorem c5_empty_input_aggregate_empty_but_index_fails :
    groupAndAggregate [] = [] ∧ uniqueSizes [] = [] ∧ largestSize [] = none :=
  ⟨rfl, rfl, rfl⟩

/-- C10: the aggregates depend only on the multiset of trials — permuting
the input rows leaves the ordered record sequence unchanged. -/
theorem c10_aggregates_permutation_invariant (trials trials' : List Trial)
    (hp : trials.Perm trials') :
    groupAndAggregate trials' = groupAndAggregate trials := by
  have hu : uniqueSizes trials' = uniqueSizes trials := by
    unfold uniqueSizes
    apply sortedUnique_eq_of_mem_iff
    intro a
    exact ((hp.map (fun t => t.input_size)).mem_iff).symm
  have hagg : ∀ s, aggregateAt trials' s = aggregateAt trials s := by
    intro s
    have hg : (group trials' s).Perm (group trials s) := (hp.symm).filter _
    unfold aggregateAt
    rw [npMean_perm (hg.map (fun t => t.time_ms)),
        npVar_perm (hg.map (fun t => t.time_ms)),
        npMean_perm (hg.map (fun t => (t.comparisons : ℚ))),
        npMean_perm (hg.map (fun t => (t.swaps : ℚ))),
        npMean_perm (hg.map (fun t => (t.heapify_ops : ℚ))),
        npMean_perm (hg.map (fun t => (t.memory_kb : ℚ)))]
  unfold groupAndAggregate
  rw [hu]
  exact List.map_congr_left (fun s _ => hagg s)

/-- Witness for C10: swapping two concrete rows. -/
theorem c10_aggregates_permutation_invariant_witness :
    groupAndAggregate [trial200, trial100] = groupAndAggregate [trial100, trial200] :=
  c10_aggregates_permutation_invariant [trial100, trial200] [trial200, trial100]
    (List.Perm.swap trial200 trial100 [])

/-- C3 counterexample: at input size 0 the script's theoretical-swaps value
is `0 - 1 = -1`, not the `0` the claim asserts. -/
theorem c3_counterexample :
    theoreticalSwapsList [trialSize0] = [-1] ∧ ¬ theoretical_swaps 0 = 0 :=
  ⟨rfl, by decide⟩

/-- C3 (amended): `theoretical_swaps n = n - 1` for every `n ≥ 1`, as the
claim states; but at `n = 0` the code returns `-1`, not `0`. -/
theorem c3_theoretical_swaps_amended (n : ℤ) (h : 1 ≤ n) :
    theoretical_swaps n = n - 1 ∧ theoretical_swaps 0 = -1 :=
  ⟨rfl, rfl⟩

/-- Witness for C3 at `n = 3`. -/
theorem c3_theoretical_swaps_amended_witness :
    (1 : ℤ) ≤ 3 ∧ theoretical_swaps 3 = 3 - 1 :=
  ⟨by decide, (c3_theoretical_swaps_amended 3 (by decide)).1⟩

/-- C4 counterexample: with a size-0 trial present, the code's theoretical
comparison value at that size is `0 * log2(0) * 1.44 = 0 * (-inf) * 1.44
= nan`, not the `0` the claim asserts for `n ≤ 1`. -/
theorem c4_counterexample :
    theoreticalCompList (fun _ => 0) [trialSize0] = [XF.nan]
    ∧ ¬ (XF.nan = XF.fin 0) := by
  constructor
  · norm_num [theoreticalCompList, theoreticalComp, uniqueSizes, sizesOf, sortedUnique,
      insertUnique, nLogN, npLog2, XF.mul, trialSize0]
  · decide

/-- C4 (amended): the theoretical comparison curve equals
`n * log2 n * 1.44` for every `n ≥ 2` and `0` at `n = 1` (since
`log2 1 = 0`), as claimed; but at `n = 0` it is `nan` (from `0 * (-inf)`),
not `0`. -/
theorem c4_theoretical_comparisons_amended (L : ℤ → ℚ) (n : ℤ) (h : 2 ≤ n) :
    theoreticalComp L n = .fin ((n : ℚ) * L n * (36 / 25))
    ∧ theoreticalComp L 1 = .fin 0
    ∧ theoreticalComp L 0 = .nan := by
  refine ⟨?_, ?_, ?_⟩
  · unfold theoreticalComp
    rw [nLogN_of_two_le L h]
    rfl
  · norm_num [theoreticalComp, nLogN, npLog2, XF.mul]
  · norm_num [theoreticalComp, nLogN, npLog2, XF.mul]

/-- Witness for C4 at `n = 4` with `log2` values stubbed to the constant 2
(`log2 4 = 2` exactly). -/
theorem c4_theoretical_comparisons_amended_witness :
    (2 : ℤ) ≤ 4
    ∧ theoreticalComp (fun _ => 2) 4 = .fin (((4 : ℤ) : ℚ) * 2 * (36 / 25)) :=
  ⟨by decide, (c4_theoretical_comparisons_amended (fun _ => 2) 4 (by decide)).1⟩

/-- `npVar` written as the spec does: sum of squared deviations divided by
the group size (`n`, not `n - 1`). -/
theorem npVar_eq_sum_div (l : List ℚ) :
    npVar l = (l.map (fun x => (x - npMean l) ^ 2)).sum / ((l.length : ℚ)) := by
  show (l.map _).sum / (((l.map _).length : ℕ) : ℚ) = _
  rw [List.length_map]

/-- C7: every record's time standard deviation follows the population
definition — its square is the sum of squared deviations divided by the
group size (not the group size minus 1) — and a group of exactly one trial
yields a standard deviation of 0. -/
theorem c7_population_std (trials : List Trial) (r : AggregateRecord)
    (hr : r ∈ groupAndAggregate trials) :
    r.std_time_sq
      = (((group trials r.input_size).map (fun t => t.time_ms)).map
          (fun x =>
            (x - npMean ((group trials r.input_size).map (fun t => t.time_ms))) ^ 2)).sum
        / (((group trials r.input_size).length : ℕ) : ℚ)
    ∧ ((group trials r.input_size).length = 1 →
        r.std_time_sq = 0 ∧ Real.sqrt ((r.std_time_sq : ℚ) : ℝ) = 0) := by
  obtain ⟨s, _, rfl⟩ := List.mem_map.1 hr
  simp only [aggregateAt_input_size]
  constructor
  · show npVar ((group trials s).map (fun t => t.time_ms)) = _
    rw [npVar_eq_sum_div, List.length_map]
  · intro hlen
    obtain ⟨t, ht⟩ := List.length_eq_one.1 hlen
    have hv : npVar ((group trials s).map (fun t => t.time_ms)) = 0 := by
      rw [ht]
      exact npVar_singleton _
    refine ⟨hv, ?_⟩
    show Real.sqrt ((npVar ((group trials s).map (fun t => t.time_ms)) : ℚ) : ℝ) = 0
    rw [hv]
    simp

/-- Witness for C7 at a concrete single-trial (singleton-group) input. -/
theorem c7_population_std_witness :
    (aggregateAt [trial100] 100 ∈ groupAndAggregate [trial100])
    ∧ ((group [trial100] 100).length = 1 →
        (aggregateAt [trial100] 100).std_time_sq = 0) := by
  have hmem : aggregateAt [trial100] 100 ∈ groupAndAggregate [trial100] :=
    List.Mem.head _
  exact ⟨hmem, fun h => ((c7_population_std [trial100] _ hmem).2 h).1⟩

/-- C2 counterexample: with a single trial of input size 1 (mean time 5 ms)
the script still computes a normalized-time entry for that size — the size
is neither excluded nor flagged — and the entry is `+inf`, the result of
the silent division `5 / (1 * log2 1) = 5 / 0` at line 123. -/
theorem c2_counterexample :
    normalizedTimeX (fun _ => 0) [trialSize1] = [XF.pinf]
    ∧ ¬ (XF.pinf = XF.fin 0) := by
  constructor
  · norm_num [normalizedTimeX, avgTimes, groupAndAggregate, aggregateAt, uniqueSizes,
      sizesOf, sortedUnique, insertUnique, group, npMean, nLogNList, nLogN, npLog2,
      XF.mul, XF.div, trialSize1]
  · decide

/-- C2 (amended): the normalized-time series is computed entrywise as
`mean_time / (n * log2 n)` over every unique size; for sizes `n ≥ 2` the
entry equals `mean_time_ms / (n * log2 n)` as claimed, but a size `n = 1`
is not excluded or flagged: its entry is computed as well and (for positive
mean time) equals `+inf` by a silent division by zero.  No crash occurs. -/
theorem c2_normalized_time_amended (L : ℤ → ℚ) (trials : List Trial)
    (hL : ∀ n : ℤ, 2 ≤ n → 0 < L n) :
    (normalizedTimeX L trials
      = (groupAndAggregate trials).map
          (fun r => XF.div (.fin r.mean_time_ms) (nLogN L r.input_size)))
    ∧ (∀ r ∈ groupAndAggregate trials, 2 ≤ r.input_size →
        XF.div (.fin r.mean_time_ms) (nLogN L r.input_size)
          = .fin (r.mean_time_ms / ((r.input_size : ℚ) * L r.input_size)))
    ∧ (∀ r ∈ groupAndAggregate trials, r.input_size = 1 → 0 < r.mean_time_ms →
        XF.div (.fin r.mean_time_ms) (nLogN L r.input_size) = .pinf) := by
  refine ⟨normalizedTimeX_eq L trials, ?_, ?_⟩
  · intro r _ h2
    rw [nLogN_of_two_le L h2]
    have h0 : (0 : ℤ) < r.input_size := by omega
    have hpos : 0 < (r.input_size : ℚ) * L r.input_size :=
      mul_pos (by exact_mod_cast h0) (hL _ h2)
    exact div_fin_of_ne (ne_of_gt hpos)
  · intro r _ h1 hpos
    rw [h1]
    have hn : nLogN L 1 = .fin 0 := by
      norm_num [nLogN, npLog2, XF.mul]
    rw [hn]
    exact div_fin_zero_of_pos hpos

/-- Witness for C2 at a concrete size-100 input with `log2` stubbed to 1. -/
theorem c2_normalized_time_amended_witness :
    normalizedTimeX (fun _ => 1) [trial100]
      = (groupAndAggregate [trial100]).map
          (fun r => XF.div (.fin r.mean_time_ms) (nLogN (fun _ => 1) r.input_size)) :=
  (c2_normalized_time_amended (fun _ => 1) [trial100] (fun _ _ => one_pos)).1

/-- Indexing the zip of a list with its own tail: entry `i` is the adjacent
pair `(l[i], l[i+1])`. -/
theorem get?_zip_tail {α : Type} (l : List α) (i : ℕ) (a b : α)
    (ha : l.get? i = some a) (hb : l.get? (i + 1) = some b) :
    (l.zip l.tail).get? i = some (a, b) := by
  induction l generalizing i with
  | nil => simp at ha
  | cons x xs ih =>
      cases i with
      | zero =>
          cases xs with
          | nil => simp at hb
          | cons y ys =>
              simp only [List.get?_cons_zero] at ha
              simp only [List.get?_cons_succ, List.get?_cons_zero] at hb
              cases ha
              cases hb
              rfl
      | succ j =>
          cases xs with
          | nil => simp at hb
          | cons y ys =>
              simp only [List.get?_cons_succ] at ha hb
              show (((x, y) :: ((y :: ys).zip ys)) : List (α × α)).get? (j + 1)
                  = some (a, b)
              rw [List.get?_cons_succ]
              exact ih j ha hb

/-- `avg_times` entry by entry: the mean time of the group of each unique
size, in order. -/
theorem avgTimes_eq (trials : List Trial) :
    avgTimes trials
      = (uniqueSizes trials).map
          (fun s => npMean ((group trials s).map (fun t => t.time_ms))) := by
  unfold avgTimes groupAndAggregate
  rw [List.map_map]
  rfl

/-- C6: for each adjacent pair `(a, b)` of unique sizes, the growth analysis
(lines 196-202) produces the measured ratio `mean_time[b] / mean_time[a]`
and the theoretical ratio `(b * log2 b) / (a * log2 a)`; and on the spec's
example — sizes `[100, 200, 400]` with mean times `[1.0, 2.2, 4.9]` — the
measured ratios are exactly `[2.2, 49/22 = 2.227...]` and the theoretical
ratios are `[(200 log2 200)/(100 log2 100), (400 log2 400)/(200 log2 200)]`. -/
theorem c6_growth_transitions (L : ℤ → ℚ)
    (h100 : 0 < L 100) (h200 : 0 < L 200) (h400 : 0 < L 400) :
    (∀ (trials : List Trial) (i : ℕ) (a b : ℤ),
        (uniqueSizes trials).get? i = some a →
        (uniqueSizes trials).get? (i + 1) = some b →
        (sizeRatiosX L trials).get? i = some (XF.div (nLogN L b) (nLogN L a))
        ∧ (growthRatiosX trials).get? i
            = some (XF.div
                (.fin (npMean ((group trials b).map (fun t => t.time_ms))))
                (.fin (npMean ((group trials a).map (fun t => t.time_ms))))))
    ∧ growthRatiosX trialsC6 = [.fin (11 / 5), .fin (49 / 22)]
    ∧ sizeRatiosX L trialsC6
        = [.fin (((200 : ℚ) * L 200) / ((100 : ℚ) * L 100)),
           .fin (((400 : ℚ) * L 400) / ((200 : ℚ) * L 200))] := by
  refine ⟨?_, ?_, ?_⟩
  · intro trials i a b ha hb
    constructor
    · unfold sizeRatiosX
      rw [List.get?_map, get?_zip_tail _ i a b ha hb]
      rfl
    · unfold growthRatiosX
      have hA : (avgTimes trials).get? i
          = some (npMean ((group trials a).map (fun t => t.time_ms))) := by
        rw [avgTimes_eq, List.get?_map, ha]
        rfl
      have hB : (avgTimes trials).get? (i + 1)
          = some (npMean ((group trials b).map (fun t => t.time_ms))) := by
        rw [avgTimes_eq, List.get?_map, hb]
        rfl
      rw [List.get?_map, get?_zip_tail _ i _ _ hA hB]
      rfl
  · norm_num [growthRatiosX, avgTimes, groupAndAggregate, aggregateAt, uniqueSizes,
      sizesOf, sortedUnique, insertUnique, group, npMean, XF.div,
      trialsC6, trial100, trial200, trial400]
  · have hu : uniqueSizes trialsC6 = [100, 200, 400] := by rfl
    unfold sizeRatiosX
    rw [hu]
    show [XF.div (nLogN L 200) (nLogN L 100), XF.div (nLogN L 400) (nLogN L 200)] = _
    rw [nLogN_of_two_le L (by decide : (2 : ℤ) ≤ 100),
        nLogN_of_two_le L (by decide : (2 : ℤ) ≤ 200),
        nLogN_of_two_le L (by decide : (2 : ℤ) ≤ 400),
        div_fin_of_ne (ne_of_gt (mul_pos (by norm_num) h100)),
        div_fin_of_ne (ne_of_gt (mul_pos (by norm_num) h200))]
    norm_num

/-- Witness for C6 on the spec's concrete example with `log2` stubbed to 1. -/
theorem c6_growth_transitions_witness :
    growthRatiosX trialsC6 = [.fin (11 / 5), .fin (49 / 22)]
    ∧ sizeRatiosX (fun _ => 1) trialsC6
        = [.fin (((200 : ℚ) * 1) / ((100 : ℚ) * 1)),
           .fin (((400 : ℚ) * 1) / ((200 : ℚ) * 1))] :=
  ⟨(c6_growth_transitions (fun _ => 1) one_pos one_pos one_pos).2.1,
   (c6_growth_transitions (fun _ => 1) one_pos one_pos one_pos).2.2⟩

/-- C8: the complexity-verification coefficient of variation (line 266) is
`std / mean * 100` over the normalized-time values, and it is
scale-invariant: multiplying every `time_ms` by a positive constant `c`
leaves it unchanged.  The first conjunct grounds the finite-regime series
`normTimesQ` in the code's `normalized_time` (all sizes being at least 2);
the second states the invariance of `sqrt (var) / mean * 100`. -/
theorem c8_cv_scale_invariant (L : ℤ → ℚ) (c : ℚ) (trials : List Trial)
    (hc : 0 < c) (hs : ∀ t ∈ trials, 2 ≤ t.input_size)
    (hL : ∀ n : ℤ, 2 ≤ n → 0 < L n) :
    normalizedTimeX L trials = (normTimesQ L trials).map XF.fin
    ∧ Real.sqrt ((npVar (normTimesQ L (scaleTimes c trials)) : ℚ) : ℝ)
        / ((npMean (normTimesQ L (scaleTimes c trials)) : ℚ) : ℝ) * 100
      = Real.sqrt ((npVar (normTimesQ L trials) : ℚ) : ℝ)
        / ((npMean (normTimesQ L trials) : ℚ) : ℝ) * 100 := by
  constructor
  · rw [normalizedTimeX_eq]
    unfold normTimesQ
    rw [List.map_map]
    apply List.map_congr_left
    intro r hr
    obtain ⟨s, hsu, rfl⟩ := List.mem_map.1 hr
    rw [mem_uniqueSizes] at hsu
    obtain ⟨t, ht, hts⟩ := List.mem_map.1 hsu
    have h2s : 2 ≤ s := hts ▸ hs t ht
    show XF.div (.fin (aggregateAt trials s).mean_time_ms) (nLogN L s)
        = XF.fin (normTimeQ L (aggregateAt trials s))
    rw [nLogN_of_two_le L h2s,
      div_fin_of_ne
        (ne_of_gt (mul_pos (by exact_mod_cast (by omega : (0 : ℤ) < s)) (hL s h2s)))]
    rfl
  · have hsz : sizesOf (scaleTimes c trials) = sizesOf trials := by
      unfold sizesOf scaleTimes
      rw [List.map_map]
      rfl
    have hu : uniqueSizes (scaleTimes c trials) = uniqueSizes trials := by
      unfold uniqueSizes
      rw [hsz]
    have hgroup : ∀ s : ℤ, group (scaleTimes c trials) s
        = (group trials s).map (fun t => { t with time_ms := c * t.time_ms }) := by
      intro s
      unfold group scaleTimes
      rw [List.filter_map]
      rfl
    have hmean : ∀ s : ℤ,
        npMean ((group (scaleTimes c trials) s).map (fun t => t.time_ms))
          = c * npMean ((group trials s).map (fun t => t.time_ms)) := by
      intro s
      rw [hgroup s, List.map_map]
      have e1 : (group trials s).map
            ((fun t => t.time_ms) ∘ fun t : Trial => { t with time_ms := c * t.time_ms })
          = ((group trials s).map (fun t => t.time_ms)).map (fun x => c * x) := by
        rw [List.map_map]
        rfl
      rw [e1, npMean_map_mul]
    have hnormQ : normTimesQ L (scaleTimes c trials)
        = (normTimesQ L trials).map (fun x => c * x) := by
      unfold normTimesQ groupAndAggregate
      rw [hu, List.map_map, List.map_map, List.map_map]
      apply List.map_congr_left
      intro s _
      show normTimeQ L (aggregateAt (scaleTimes c trials) s)
          = c * normTimeQ L (aggregateAt trials s)
      show npMean ((group (scaleTimes c trials) s).map (fun t => t.time_ms))
            / ((s : ℚ) * L s)
          = c * (npMean ((group trials s).map (fun t => t.time_ms)) / ((s : ℚ) * L s))
      rw [hmean s, mul_div_assoc]
    rw [hnormQ, npVar_map_mul, npMean_map_mul]
    push_cast
    rw [Real.sqrt_mul (by positivity) ((npVar (normTimesQ L trials) : ℚ) : ℝ),
      Real.sqrt_sq (by exact_mod_cast hc.le),
      mul_div_mul_left _ _ (by exact_mod_cast ne_of_gt hc)]

/-- Witness for C8 on a concrete two-size trial set, `c = 2`, `log2`
stubbed to 1. -/
theorem c8_cv_scale_invariant_witness :
    normalizedTimeX (fun _ => 1) [trial100, trial200]
      = (normTimesQ (fun _ => 1) [trial100, trial200]).map XF.fin :=
  (c8_cv_scale_invariant (fun _ => 1) 2 [trial100, trial200] (by norm_num)
    (by decide) (fun _ _ => one_pos)).1

/-- A well-formed CSV row: all six fields present and numeric. -/
def goodRow : Row :=
  [("InputSize", "100"), ("TimeMillis", "1.5"), ("Comparisons", "10"),
   ("Swaps", "5"), ("HeapifyOps", "3"), ("MemoryKB", "64")]

/-- A malformed CSV row: non-numeric `TimeMillis`. -/
def badRow : Row :=
  [("InputSize", "100"), ("TimeMillis", "abc"), ("Comparisons", "10"),
   ("Swaps", "5"), ("HeapifyOps", "3"), ("MemoryKB", "64")]

/-- C9 counterexample: the load aborts with the very same error value
whether the malformed row is the first row (offending row index 0) or the
second (offending row index 1): the surfaced condition carries only the
field name and offending text, so it cannot identify the offending row
index, contrary to the claim. -/
theorem c9_counterexample :
    loadTrials [badRow] = .error (.badFloat "TimeMillis" "abc")
    ∧ loadTrials [goodRow, badRow] = .error (.badFloat "TimeMillis" "abc") :=
  ⟨rfl, rfl⟩

/-- C9 (amended): a stream containing a malformed row (missing field or
failed numeric coercion) always aborts the load with an error — never a
silent skip: any successful load returns exactly one trial per input row —
but the surfaced error does not identify the offending row index. -/
theorem c9_loader_aborts_without_row_index (rows : List Row) :
    ((∃ r ∈ rows, ∃ e, parseRow r = .error e) → ∃ e, loadTrials rows = .error e)
    ∧ (∀ ts, loadTrials rows = .ok ts → ts.length = rows.length) := by
  induction rows with
  | nil =>
      constructor
      · rintro ⟨r, hr, _⟩
        simp at hr
      · intro ts hts
        cases hts
        rfl
  | cons r rs ih =>
      constructor
      · rintro ⟨r', hr', e, he⟩
        rcases List.mem_cons.1 hr' with rfl | hmem
        · refine ⟨e, ?_⟩
          simp only [loadTrials]
          rw [he]
        · cases hp : parseRow r with
          | error e2 =>
              refine ⟨e2, ?_⟩
              simp only [loadTrials]
              rw [hp]
          | ok t =>
              obtain ⟨e3, he3⟩ := ih.1 ⟨r', hmem, e, he⟩
              refine ⟨e3, ?_⟩
              simp only [loadTrials]
              rw [hp, he3]
      · intro ts hts
        simp only [loadTrials] at hts
        cases hp : parseRow r with
        | error e2 =>
            rw [hp] at hts
            simp at hts
        | ok t =>
            rw [hp] at hts
            cases hl : loadTrials rs with
            | error e2 =>
                rw [hl] at hts
                simp at hts
            | ok ts2 =>
                rw [hl] at hts
                simp only [Except.ok.injEq] at hts
                subst hts
                simp [List.length_cons, ih.2 ts2 hl]

/-- Witness for C9: the mixed good/bad stream aborts with an error. -/
theorem c9_loader_aborts_without_row_index_witness :
    ∃ e, loadTrials [goodRow, badRow] = Except.error e :=
  (c9_loader_aborts_without_row_index [goodRow, badRow]).1
    ⟨badRow, List.Mem.tail _ (List.Mem.head _), .badFloat "TimeMillis" "abc", rfl⟩
